import Mathlib

deriving instance DecidableEq for Except

/-!
Verification development for the Fishka room-coordination core.

The repository ships only black-box end-to-end tests; the server and client
they drive are absent. Every definition below is therefore a shallow
embedding reconstructed from the specification's component design (Session
Store, Room Registry, Room Actor, Connection Gateway) and checked against
the behaviour the tests pin down.
-/

namespace Fishka

/-- Connection state of a player inside a room (spec §3, Player). -/
inductive ConnState where
  | Connected
  | Disconnected
deriving DecidableEq

/-- Lifecycle phase of a room (spec §3/§4.3): Lobby is initial, Closed terminal. -/
inductive Phase where
  | Lobby
  | InProgress
  | Closed
deriving DecidableEq

/-- Modelled from the spec: room-scoped Player record (§3). `joinOrder` is
monotonically assigned, never reused, and drives host succession. -/
structure Player where
  playerId : Nat
  displayName : String
  connectionState : ConnState
  joinOrder : Nat
deriving DecidableEq

/-- Modelled from the spec: Room record (§3). The game kind is out of scope. -/
structure Room where
  code : String
  hostPlayerId : Nat
  players : List Player
  phase : Phase
deriving DecidableEq

/-- Modelled from the spec: Session record of the Session Store (§3/§4.1). -/
structure Session where
  token : String
  playerId : Nat
  displayName : String
  currentRoomCode : Option String
deriving DecidableEq

/-- Error taxonomy of the core (spec §7). -/
inductive RoomError where
  | RoomNotFound
  | RoomNotJoinable
  | NotHost
  | InsufficientPlayers
  | SessionUnresolvable
  | CodeAllocationExhausted
deriving DecidableEq

/-- Client-visible screen: neutral start state or the room view (spec §6). -/
inductive View where
  | Home
  | RoomView (code : String)
deriving DecidableEq

/-- URL path rendered for a view (spec §6, URL addressing). -/
def routeOf : View → String
  | View.Home => "/"
  | View.RoomView code => "/room/" ++ code

/-- The 34-symbol room-code alphabet: A–Z plus 2–9 (spec §6). -/
def codeAlphabet : List Char := "ABCDEFGHIJKLMNOPQRSTUVWXYZ23456789".data

/-- Modelled from the spec: code generation samples the alphabet four times (§4.2). -/
def codeOfSamples (f : Fin 4 → Fin 34) : String :=
  String.mk ((List.finRange 4).map fun i => codeAlphabet.getD (f i).val 'A')

/-- A code is well-formed when it is 4 characters drawn from the alphabet (§6). -/
def validCode (s : String) : Bool :=
  s.length == 4 && s.data.all fun c => codeAlphabet.contains c

/-- Case normalisation for code lookup: uppercase every character (spec §4.2/§6). -/
def normalizeCode (s : String) : String :=
  String.mk (s.data.map Char.toUpper)

/-- Modelled from the spec: the Room Registry holding all rooms (§4.2). -/
structure Registry where
  rooms : List Room
deriving DecidableEq

/-- Rooms that currently count as live: every non-Closed room (§3). -/
def liveRooms (reg : Registry) : List Room :=
  reg.rooms.filter fun r => decide (r.phase ≠ Phase.Closed)

/-- Codes of the live rooms, against which creation enforces uniqueness (§3). -/
def liveCodes (reg : Registry) : List String :=
  (liveRooms reg).map fun r => r.code

/-- Modelled from the spec: `findByCode` is a case-insensitive lookup among
live rooms; reaped or unknown codes resolve to nothing (§4.2). -/
def findByCode (reg : Registry) (code : String) : Option Room :=
  (liveRooms reg).find? fun r => normalizeCode r.code == normalizeCode code

/-- Modelled from the spec: code allocation draws candidate samples and takes
the first code that does not collide with any live room (§4.2). -/
def allocCode (reg : Registry) (cands : List (Fin 4 → Fin 34)) : Option String :=
  (cands.map codeOfSamples).find? fun c => !((liveCodes reg).contains c)

/-- Fresh player entry for a joining session. -/
def newPlayer (s : Session) (jo : Nat) : Player :=
  { playerId := s.playerId, displayName := s.displayName,
    connectionState := ConnState.Connected, joinOrder := jo }

/-- Modelled from the spec: `createRoom` allocates a unique code and creates a
Lobby room whose only player is the creating host with joinOrder 0 (§4.2). -/
def createRoom (reg : Registry) (host : Session) (cands : List (Fin 4 → Fin 34)) :
    Option (Registry × Room) :=
  match allocCode reg cands with
  | none => none
  | some code =>
      let room : Room :=
        { code := code, hostPlayerId := host.playerId,
          players := [newPlayer host 0], phase := Phase.Lobby }
      some ({ rooms := room :: reg.rooms }, room)

/-- Connected entries of a roster. -/
def countConnected (ps : List Player) : Nat :=
  (ps.filter fun p => p.connectionState == ConnState.Connected).length

/-- Number of Connected players in a room. -/
def connectedCount (room : Room) : Nat := countConnected room.players

/-- Next joinOrder: one past the largest order ever assigned in this roster. -/
def nextJoinOrder (ps : List Player) : Nat :=
  ps.foldl (fun m p => max m (p.joinOrder + 1)) 0

/-- Modelled from the spec: Room Actor `join` (§4.3). Fails outside Lobby; a
session whose playerId already has an entry is reconnected in place (marked
Connected, same slot); otherwise a fresh entry is appended. -/
def join (room : Room) (s : Session) : Except RoomError Room :=
  match room.phase with
  | Phase.Lobby =>
      match room.players.find? (fun p => p.playerId == s.playerId) with
      | some _ =>
          Except.ok { room with players := room.players.map fun q =>
            if q.playerId == s.playerId
            then { q with connectionState := ConnState.Connected } else q }
      | none =>
          Except.ok { room with
            players := room.players ++ [newPlayer s (nextJoinOrder room.players)] }
  | _ => Except.error RoomError.RoomNotJoinable

/-- Of a seed player and a list, the one with the least joinOrder. -/
def minByJoinOrder (p : Player) : List Player → Player
  | [] => p
  | q :: qs =>
      if p.joinOrder ≤ q.joinOrder then minByJoinOrder p qs else minByJoinOrder q qs

/-- Player with the least joinOrder in a list, if any. -/
def argminJoinOrder : List Player → Option Player
  | [] => none
  | p :: ps => some (minByJoinOrder p ps)

/-- Mark the leaving player's entries Disconnected (grace window starts, §4.3). -/
def markLeft (leaverId : Nat) (ps : List Player) : List Player :=
  ps.map fun p =>
    if p.playerId == leaverId
    then { p with connectionState := ConnState.Disconnected } else p

/-- Roster entries other than the leaver. -/
def remainingAfter (leaverId : Nat) (ps : List Player) : List Player :=
  ps.filter fun p => p.playerId != leaverId

/-- Modelled from the spec: host succession (§4.3): the lowest-joinOrder
remaining Connected player, falling back to the lowest-joinOrder remaining
player if none is connected, keeping the old host if nobody remains. -/
def nextHost (leaverId oldHost : Nat) (ps : List Player) : Nat :=
  match argminJoinOrder
      ((remainingAfter leaverId ps).filter fun p =>
        p.connectionState == ConnState.Connected) with
  | some q => q.playerId
  | none =>
      match argminJoinOrder (remainingAfter leaverId ps) with
      | some q => q.playerId
      | none => oldHost

/-- Modelled from the spec: Room Actor `leave` (§4.3): marks the player
Disconnected immediately and reassigns the host role if the host left. -/
def leave (room : Room) (s : Session) : Room :=
  { room with
    players := markLeft s.playerId room.players,
    hostPlayerId :=
      if room.hostPlayerId == s.playerId
      then nextHost s.playerId room.hostPlayerId room.players
      else room.hostPlayerId }

/-- Modelled from the spec: Room Actor `start` (§4.3): only the host may call
it (NotHost otherwise); idempotent no-op success on an InProgress room;
InsufficientPlayers below 2 Connected players; otherwise Lobby → InProgress. -/
def start (room : Room) (s : Session) : Except RoomError Room :=
  if room.hostPlayerId == s.playerId then
    match room.phase with
    | Phase.InProgress => Except.ok room
    | Phase.Closed => Except.error RoomError.RoomNotJoinable
    | Phase.Lobby =>
        if connectedCount room < 2 then Except.error RoomError.InsufficientPlayers
        else Except.ok { room with phase := Phase.InProgress }
  else Except.error RoomError.NotHost

/-- Modelled from the spec: session tokens are opaque unguessable strings
minted once per session (§4.1); modelled as distinct nonempty strings. -/
def mintToken (n : Nat) : String :=
  String.mk (List.replicate (n + 1) 't')

/-- Modelled from the spec: Session Store `resolve` — pure token lookup (§4.1). -/
def resolve (sessions : List Session) (t : String) : Option Session :=
  sessions.find? fun s => s.token == t

/-- Session Store `attachToRoom`: record the room the session is attached to (§4.1). -/
def attachToRoom (sessions : List Session) (tok code : String) : List Session :=
  sessions.map fun s =>
    if s.token == tok then { s with currentRoomCode := some code } else s

/-- Session Store `detachFromRoom`: clear the session's current room (§4.1). -/
def detachFromRoom (sessions : List Session) (tok : String) : List Session :=
  sessions.map fun s =>
    if s.token == tok then { s with currentRoomCode := none } else s

/-- Modelled from the spec: the server-side state the Gateway coordinates:
the Session Store, the Room Registry and a counter minting fresh
tokens/player identities. -/
structure Server where
  sessions : List Session
  reg : Registry
  nonce : Nat
deriving DecidableEq

/-- Modelled from the spec: Gateway handshake step (§4.4): a presented token
resolves to its existing session; an absent or unknown token mints a fresh
session ("start fresh", never an error). -/
def connect (srv : Server) (stored : Option String) (name : String) :
    Server × Session :=
  match stored.bind (resolve srv.sessions) with
  | some sess => (srv, sess)
  | none =>
      let sess : Session :=
        { token := mintToken srv.nonce, playerId := srv.nonce,
          displayName := name, currentRoomCode := none }
      ({ srv with sessions := sess :: srv.sessions, nonce := srv.nonce + 1 }, sess)

/-- Outcome of a client page load: new server state, the token the client now
persists, and the screen shown. -/
structure LoadResult where
  server : Server
  storedToken : String
  view : View
deriving DecidableEq

/-- Replace the stored copy of a room (matched by code) after a mutation. -/
def updateRoom (reg : Registry) (room' : Room) : Registry :=
  { rooms := reg.rooms.map fun r => if r.code == room'.code then room' else r }

/-- Room code the load should attach to: the URL's code when present,
otherwise the session's last room (reconnect), otherwise nothing. -/
def attachTarget (urlCode : Option String) (sess : Session) : Option String :=
  match urlCode with
  | some c => some c
  | none => sess.currentRoomCode

/-- Modelled from the spec: a full client page load (§4.4 handshake + §6):
resolve or mint the session, then attach to the requested room if it exists
and is joinable; any failure degrades to the neutral start state. -/
def pageLoad (srv : Server) (stored : Option String) (urlCode : Option String)
    (name : String) : LoadResult :=
  let p := connect srv stored name
  match attachTarget urlCode p.2 with
  | none => { server := p.1, storedToken := p.2.token, view := View.Home }
  | some code =>
      match findByCode p.1.reg code with
      | none => { server := p.1, storedToken := p.2.token, view := View.Home }
      | some room =>
          match join room p.2 with
          | Except.error _ =>
              { server := p.1, storedToken := p.2.token, view := View.Home }
          | Except.ok room' =>
              { server := { p.1 with
                  reg := updateRoom p.1.reg room',
                  sessions := attachToRoom p.1.sessions p.2.token room'.code },
                storedToken := p.2.token, view := View.RoomView room'.code }

/-- Modelled from the spec: joining by entering a code in the join form: the
client is already connected, then sends an explicit join request for the
code (§4.4 step 4). -/
def joinViaForm (srv : Server) (stored : Option String) (name code : String) :
    LoadResult :=
  let p := connect srv stored name
  match findByCode p.1.reg code with
  | none => { server := p.1, storedToken := p.2.token, view := View.Home }
  | some room =>
      match join room p.2 with
      | Except.error _ =>
          { server := p.1, storedToken := p.2.token, view := View.Home }
      | Except.ok room' =>
          { server := { p.1 with
              reg := updateRoom p.1.reg room',
              sessions := attachToRoom p.1.sessions p.2.token room'.code },
            storedToken := p.2.token, view := View.RoomView room'.code }

/-- Joining by direct navigation to the room URL: a page load whose URL
carries the code (§6, URL addressing). -/
def joinViaUrl (srv : Server) (stored : Option String) (name code : String) :
    LoadResult :=
  pageLoad srv stored (some code) name

/-- Modelled from the spec: the create-room flow: connect, create the room
through the Registry, attach the session to it (§4.2/§4.4). Returns the new
server state, the token the client persists, and the created room. -/
def createRoomFlow (srv : Server) (stored : Option String) (name : String)
    (cands : List (Fin 4 → Fin 34)) : Option (Server × String × Room) :=
  let p := connect srv stored name
  match createRoom p.1.reg p.2 cands with
  | none => none
  | some (reg', room) =>
      some ({ p.1 with
                reg := reg',
                sessions := attachToRoom p.1.sessions p.2.token room.code },
            p.2.token, room)

/-- Modelled from the spec: the explicit leave action (§4.3 `leave` plus the
observed client contract): the room marks the player Disconnected, the
session detaches, and the client returns to the neutral start state. -/
def leaveFlow (srv : Server) (tok : String) : Server × View :=
  match resolve srv.sessions tok with
  | none => (srv, View.Home)
  | some sess =>
      match sess.currentRoomCode with
      | none => ({ srv with sessions := detachFromRoom srv.sessions tok }, View.Home)
      | some code =>
          match findByCode srv.reg code with
          | none =>
              ({ srv with sessions := detachFromRoom srv.sessions tok }, View.Home)
          | some room =>
              ({ srv with
                  reg := updateRoom srv.reg (leave room sess),
                  sessions := detachFromRoom srv.sessions tok }, View.Home)

/-- Requests a client can issue to the Gateway once ready (§4.4). -/
inductive Request where
  | createReq
  | joinReq
deriving DecidableEq

/-- Events observed by the client user interface: the Gateway's readiness
signal, and the user clicking the create or join affordance. -/
inductive ClientEv where
  | gotReady
  | clickCreate
  | clickJoin
deriving DecidableEq

/-- Modelled from the spec: the client user-interface state gating the
create/join affordances behind the Gateway readiness signal (§4.4 step 3,
§6 readiness signal). `sent` records requests actually issued. -/
structure ClientUi where
  ready : Bool
  sent : List Request
deriving DecidableEq

/-- Initial client state: not ready, nothing sent. -/
def uiInit : ClientUi := { ready := false, sent := [] }

/-- The create affordance is enabled exactly when the connection is ready. -/
def canCreate (st : ClientUi) : Bool := st.ready

/-- The join affordance is enabled exactly when the connection is ready. -/
def canJoin (st : ClientUi) : Bool := st.ready

/-- One client user-interface transition: readiness enables the affordances;
a click issues a request only when the affordance is enabled. -/
def uiStep (st : ClientUi) : ClientEv → ClientUi
  | ClientEv.gotReady => { st with ready := true }
  | ClientEv.clickCreate =>
      if canCreate st then { st with sent := st.sent ++ [Request.createReq] } else st
  | ClientEv.clickJoin =>
      if canJoin st then { st with sent := st.sent ++ [Request.joinReq] } else st

/-- Run the client user interface over a list of events. -/
def uiRun (st : ClientUi) (evs : List ClientEv) : ClientUi :=
  evs.foldl uiStep st

/-- Events a Room Actor broadcasts after a state-changing operation (§4.4). -/
inductive Event where
  | RosterChanged (players : List Player) (hostPlayerId : Nat)
  | PhaseChanged (phase : Phase)
deriving DecidableEq

/-- The roster event a room mutation broadcasts. -/
def rosterEvent (r : Room) : Event :=
  Event.RosterChanged r.players r.hostPlayerId

/-- A client connection at the Gateway: which room it is attached to and the
events delivered to it so far, tagged by originating room code. -/
structure Conn where
  connId : Nat
  attachedRoom : Option String
  inbox : List (String × Event)
deriving DecidableEq

/-- Modelled from the spec: Gateway fan-out (§4.4): each emitted event is
delivered, in emission order, to every connection attached to the room. -/
def broadcastEv (conns : List Conn) (code : String) (es : List Event) : List Conn :=
  conns.map fun c =>
    if c.attachedRoom == some code
    then { c with inbox := c.inbox ++ es.map fun e => (code, e) } else c

/-- The events a connection has observed for a given room, in delivery order. -/
def obs (c : Conn) (code : String) : List Event :=
  (c.inbox.filter fun pr => pr.1 == code).map fun pr => pr.2

/-- An operation submitted to a Room Actor (§4.3). -/
inductive RoomOp where
  | opJoin (s : Session)
  | opLeave (s : Session)
  | opStart (s : Session)
deriving DecidableEq

/-- Modelled from the spec: one serialized Room Actor operation together with
the events it broadcasts; failures are returned to the requester only and
broadcast nothing (§7 propagation policy). -/
def applyOp (room : Room) : RoomOp → Room × List Event
  | RoomOp.opJoin s =>
      match join room s with
      | Except.ok r' => (r', [rosterEvent r'])
      | Except.error _ => (room, [])
  | RoomOp.opLeave s =>
      let r' := leave room s
      (r', [rosterEvent r'])
  | RoomOp.opStart s =>
      match start room s with
      | Except.ok r' => (r', [Event.PhaseChanged r'.phase])
      | Except.error _ => (room, [])

/-- Apply an operation to the first room carrying the given code, appending
the emitted events to that room's log; returns the rooms and the events. -/
def updateRoomLog : List (Room × List Event) → String → RoomOp →
    List (Room × List Event) × List Event
  | [], _, _ => ([], [])
  | rl :: rest, code, op =>
      if rl.1.code == code then
        let pr := applyOp rl.1 op
        ((pr.1, rl.2 ++ pr.2) :: rest, pr.2)
      else
        let q := updateRoomLog rest code op
        (rl :: q.1, q.2)

/-- Modelled from the spec: the per-room serialized system (§5): rooms with
their event logs, and the client connections fed by the Gateway fan-out. -/
structure Sys where
  rooms : List (Room × List Event)
  conns : List Conn
deriving DecidableEq

/-- One atomic serialized step: a single room operation runs to completion
against its room and its events are fanned out before any other operation
on that room is processed (§5). -/
def step (sys : Sys) (c : String × RoomOp) : Sys :=
  let q := updateRoomLog sys.rooms c.1 c.2
  { rooms := q.1, conns := broadcastEv sys.conns c.1 q.2 }

/-- Run a sequence of serialized room operations. -/
def run (sys : Sys) (ops : List (String × RoomOp)) : Sys :=
  ops.foldl step sys

/-- The event log of the room carrying a code, empty if no such room. -/
def logOf (rooms : List (Room × List Event)) (code : String) : List Event :=
  match rooms.find? (fun rl => rl.1.code == code) with
  | some rl => rl.2
  | none => []

/-- Ordering invariant (§5): every connection attached to a room has observed
exactly that room's event log, in order. -/
def SysInv (sys : Sys) : Prop :=
  ∀ c ∈ sys.conns, ∀ code, c.attachedRoom = some code →
    obs c code = logOf sys.rooms code

/-- Concrete roster used by witnesses: host, a connected and a disconnected player. -/
def pA : Player :=
  { playerId := 0, displayName := "a", connectionState := ConnState.Connected,
    joinOrder := 0 }

/-- Second concrete player, connected. -/
def pB : Player :=
  { playerId := 1, displayName := "b", connectionState := ConnState.Connected,
    joinOrder := 1 }

/-- Third concrete player, disconnected. -/
def pC : Player :=
  { playerId := 2, displayName := "c", connectionState := ConnState.Disconnected,
    joinOrder := 2 }

/-- Concrete three-player lobby room hosted by pA. -/
def room3 : Room :=
  { code := "AAAA", hostPlayerId := 0, players := [pA, pB, pC],
    phase := Phase.Lobby }

/-- Concrete session of the host pA. -/
def sessA : Session :=
  { token := "t", playerId := 0, displayName := "a",
    currentRoomCode := some "AAAA" }

/-- Concrete session of the second player pB. -/
def sessB : Session :=
  { token := "u", playerId := 1, displayName := "b",
    currentRoomCode := some "AAAA" }

/-- Concrete session of a player not in room3. -/
def sessD : Session :=
  { token := "v", playerId := 7, displayName := "d", currentRoomCode := none }

/-- Empty concrete server. -/
def srv0 : Server := { sessions := [], reg := { rooms := [] }, nonce := 0 }

/-- Concrete candidate sample drawing the first alphabet symbol four times. -/
def cand0 : Fin 4 → Fin 34 := fun _ => (0 : Fin 34)

/-- Concrete candidate sample drawing the second alphabet symbol four times. -/
def cand1 : Fin 4 → Fin 34 := fun _ => (1 : Fin 34)

/-- Concrete single-player lobby room hosted by pA. -/
def room1 : Room :=
  { code := "AAAA", hostPlayerId := 0, players := [pA], phase := Phase.Lobby }

/-- Concrete two-player lobby room hosted by pA: room1 after pB joined. -/
def room2 : Room :=
  { code := "AAAA", hostPlayerId := 0, players := [pA, pB], phase := Phase.Lobby }

/-- Concrete registry with one live room. -/
def reg1 : Registry := { rooms := [room3] }

/-- Concrete connection attached to room3. -/
def conn0 : Conn := { connId := 0, attachedRoom := some "AAAA", inbox := [] }

/-- Concrete serialized system: room3 with an empty log and one attached connection. -/
def sys0 : Sys := { rooms := [(room3, [])], conns := [conn0] }

/-- Concrete operation sequence against room3. -/
def ops0 : List (String × RoomOp) :=
  [("AAAA", RoomOp.opJoin sessD), ("AAAA", RoomOp.opStart sessA)]

/-- Concrete room created for sessD next to reg1's live room. -/
def roomB : Room :=
  { code := "BBBB", hostPlayerId := 7, players := [newPlayer sessD 0],
    phase := Phase.Lobby }

/-- Concrete registry after creating roomB in reg1. -/
def regB : Registry := { rooms := [roomB, room3] }

/-- Concrete server hosting room3 with sessA resolvable. -/
def srvL : Server := { sessions := [sessA], reg := reg1, nonce := 2 }

/-- Concrete session as stored after the create-room flow from srv0. -/
def sessP : Session :=
  { token := "t", playerId := 0, displayName := "p",
    currentRoomCode := some "AAAA" }

/-- Concrete room created by the create-room flow from srv0. -/
def roomC : Room :=
  { code := "AAAA", hostPlayerId := 0,
    players := [{ playerId := 0, displayName := "p",
                  connectionState := ConnState.Connected, joinOrder := 0 }],
    phase := Phase.Lobby }

/-- Concrete server state after the create-room flow from srv0. -/
def srvC : Server :=
  { sessions := [sessP], reg := { rooms := [roomC] }, nonce := 1 }

/-! Helper lemmas shared by the claim theorems. -/

/-- A minted session token is never the empty string. -/
theorem mintToken_ne_empty (n : Nat) : mintToken n ≠ "" := by
  intro h
  have hlen : (mintToken n).length = 0 := by rw [h]; rfl
  simp [mintToken, String.length] at hlen

/-- The handshake never changes the Room Registry. -/
theorem connect_reg (srv : Server) (stored : Option String) (name : String) :
    (connect srv stored name).1.reg = srv.reg := by
  cases hb : stored.bind (resolve srv.sessions) <;> simp [connect, hb]

/-- A string absent from a contains-check differs from every list element. -/
theorem ne_of_contains_eq_false {l : List String} {a : String}
    (h : l.contains a = false) : ∀ x ∈ l, x ≠ a := by
  intro x hx heq
  subst heq
  have hmem : l.contains x = true := List.elem_iff.mpr hx
  rw [h] at hmem
  exact Bool.false_ne_true hmem

/-- Every generated code is 4 characters over the room-code alphabet. -/
theorem validCode_codeOfSamples (f : Fin 4 → Fin 34) :
    validCode (codeOfSamples f) = true := by
  have halpha : ∀ k : Fin 34,
      codeAlphabet.contains (codeAlphabet.getD k.val 'A') = true := by decide
  unfold validCode codeOfSamples
  rw [Bool.and_eq_true]
  constructor
  · simp [String.length]
  · rw [List.all_eq_true]
    intro c hc
    obtain ⟨i, -, rfl⟩ := List.mem_map.mp hc
    exact halpha (f i)

/-- Connected counts add up across roster concatenation. -/
theorem countConnected_append (ps qs : List Player) :
    countConnected (ps ++ qs) = countConnected ps + countConnected qs := by
  simp [countConnected, List.filter_append]

/-- A client user interface that never saw the readiness signal is untouched. -/
theorem uiRun_no_ready (evs : List ClientEv) (h : ClientEv.gotReady ∉ evs) :
    uiRun uiInit evs = uiInit := by
  induction evs with
  | nil => rfl
  | cons e evs ih =>
      have he : e ≠ ClientEv.gotReady := fun hh => h (hh ▸ List.mem_cons_self e evs)
      have h2 : ClientEv.gotReady ∉ evs := fun hh => h (List.mem_cons_of_mem e hh)
      have hstep : uiStep uiInit e = uiInit := by
        cases e with
        | gotReady => exact absurd rfl he
        | clickCreate => rfl
        | clickJoin => rfl
      show uiRun (uiStep uiInit e) evs = uiInit
      rw [hstep]
      exact ih h2

/-! Claim theorems. -/

/-- Claim C2: in a Lobby room, `start` is rejected whenever fewer than 2
players are Connected and accepted by the host once a 2nd connected player
has joined; a caller who is not the current host never successfully starts
the room. -/
theorem start_gating_and_authorization (room : Room) (s : Session) :
    (s.playerId ≠ room.hostPlayerId →
      start room s = Except.error RoomError.NotHost) ∧
    (room.phase = Phase.Lobby → connectedCount room < 2 →
      ∀ r', start room s ≠ Except.ok r') ∧
    (room.phase = Phase.Lobby → s.playerId = room.hostPlayerId →
      2 ≤ connectedCount room →
      start room s = Except.ok { room with phase := Phase.InProgress }) ∧
    (room.phase = Phase.Lobby → s.playerId = room.hostPlayerId →
      ∀ joiner room',
        room.players.find? (fun p => p.playerId == joiner.playerId) = none →
        join room joiner = Except.ok room' → 1 ≤ connectedCount room →
        start room' s = Except.ok { room' with phase := Phase.InProgress }) := by
  refine ⟨?_, ?_, ?_, ?_⟩
  · intro hne
    have hb : (room.hostPlayerId == s.playerId) = false := by
      simp only [beq_eq_false_iff_ne]
      exact fun hh => hne hh.symm
    simp [start, hb]
  · intro hL hlt r'
    by_cases hh : room.hostPlayerId = s.playerId
    · simp [start, hh, hL, hlt]
    · have hb : (room.hostPlayerId == s.playerId) = false := by
        simpa [beq_eq_false_iff_ne] using hh
      simp [start, hb]
  · intro hL heq hge
    have hb : (room.hostPlayerId == s.playerId) = true := by
      simp [beq_iff_eq, heq]
    simp [start, hb, hL, Nat.not_lt.mpr hge]
  · intro hL heq joiner room' hfind hjoin hge1
    have hroom' : { room with players :=
        room.players ++ [newPlayer joiner (nextJoinOrder room.players)] } = room' := by
      simpa [join, hL, hfind] using hjoin
    subst hroom'
    have hb : (room.hostPlayerId == s.playerId) = true := by
      simp [beq_iff_eq, heq]
    have hcone : countConnected [newPlayer joiner (nextJoinOrder room.players)] = 1 := by
      simp [countConnected, newPlayer]
    have hcc : connectedCount { room with players :=
        room.players ++ [newPlayer joiner (nextJoinOrder room.players)] } =
        connectedCount room + 1 := by
      show countConnected (room.players ++ [newPlayer joiner (nextJoinOrder room.players)]) =
        countConnected room.players + 1
      rw [countConnected_append, hcone]
    have hge2 : 2 ≤ connectedCount { room with players :=
        room.players ++ [newPlayer joiner (nextJoinOrder room.players)] } := by
      rw [hcc]
      omega
    simp [start, hb, hL]
    exact hge2

/-- Claim C2 witness: concrete rooms exercising every branch of the gating. -/
theorem start_gating_witness :
    start room1 sessB = Except.error RoomError.NotHost ∧
    (∀ r', start room1 sessA ≠ Except.ok r') ∧
    start room3 sessA = Except.ok { room3 with phase := Phase.InProgress } ∧
    start room2 sessA = Except.ok { room2 with phase := Phase.InProgress } :=
  ⟨(start_gating_and_authorization room1 sessB).1 (by decide),
   (start_gating_and_authorization room1 sessA).2.1 rfl (by decide),
   (start_gating_and_authorization room3 sessA).2.2.1 rfl rfl (by decide),
   (start_gating_and_authorization room1 sessA).2.2.2 rfl rfl sessB room2
     (by decide) (by decide) (by decide)⟩

/-- Claim C3: every successfully created room carries a 4-character code over
the allowed alphabet, distinct from the code of every live room. -/
theorem created_code_valid_and_unique (reg : Registry) (host : Session)
    (cands : List (Fin 4 → Fin 34)) (reg' : Registry) (room : Room)
    (h : createRoom reg host cands = some (reg', room)) :
    validCode room.code = true ∧ ∀ r ∈ liveRooms reg, r.code ≠ room.code := by
  unfold createRoom at h
  cases halloc : allocCode reg cands with
  | none => rw [halloc] at h; cases h
  | some code =>
      rw [halloc] at h
      simp only [Option.some.injEq, Prod.mk.injEq] at h
      obtain ⟨-, hroom⟩ := h
      subst hroom
      unfold allocCode at halloc
      have hpred := List.find?_some halloc
      have hcont : (liveCodes reg).contains code = false := by
        simpa using hpred
      have hmem := List.mem_of_find?_eq_some halloc
      obtain ⟨f, -, rfl⟩ := List.mem_map.mp hmem
      refine ⟨validCode_codeOfSamples f, ?_⟩
      intro r hr heq
      have hcodes : r.code ∈ liveCodes reg := List.mem_map_of_mem _ hr
      exact ne_of_contains_eq_false hcont r.code hcodes heq

/-- Claim C3 witness: creating a room next to a live "AAAA" room allocates
the non-colliding "BBBB". -/
theorem created_code_witness :
    validCode roomB.code = true ∧ ∀ r ∈ liveRooms reg1, r.code ≠ roomB.code :=
  created_code_valid_and_unique reg1 sessD [cand0, cand1] regB roomB (by decide)

/-- Claim C4: a code matching no live room, whether entered in the join form
or navigated to as a URL, lands the client on the neutral start state. -/
theorem invalid_code_goes_home (srv : Server) (stored : Option String)
    (name code : String) (h : findByCode srv.reg code = none) :
    (joinViaForm srv stored name code).view = View.Home ∧
    (joinViaUrl srv stored name code).view = View.Home := by
  have hreg : findByCode (connect srv stored name).1.reg code = none := by
    rw [connect_reg]; exact h
  constructor
  · simp only [joinViaForm]
    rw [hreg]
  · simp only [joinViaUrl, pageLoad, attachTarget]
    rw [hreg]

/-- Claim C4 witness: the unknown code "ZZZZ" routes home on both paths. -/
theorem invalid_code_goes_home_witness :
    (joinViaForm srv0 none "p" "ZZZZ").view = View.Home ∧
    (joinViaUrl srv0 none "p" "ZZZZ").view = View.Home :=
  invalid_code_goes_home srv0 none "p" "ZZZZ" (by decide)

/-- Claim C5: joining by entering a code in the form and joining by direct
navigation to the room URL produce identical results, and a fresh joiner is
appended as exactly one new Connected roster entry. -/
theorem join_paths_equivalent :
    (∀ (srv : Server) (stored : Option String) (name code : String),
      joinViaForm srv stored name code = joinViaUrl srv stored name code) ∧
    (∀ (room : Room) (sess : Session), room.phase = Phase.Lobby →
      room.players.find? (fun p => p.playerId == sess.playerId) = none →
      join room sess = Except.ok { room with
        players := room.players ++ [newPlayer sess (nextJoinOrder room.players)] }) := by
  constructor
  · intro srv stored name code
    rfl
  · intro room sess hL hfind
    simp [join, hL, hfind]

/-- Claim C5 witness: both join paths agree on a concrete input, and sessB
joining room1 appends exactly the entry pB. -/
theorem join_paths_equivalent_witness :
    joinViaForm srv0 none "p" "AAAA" = joinViaUrl srv0 none "p" "AAAA" ∧
    join room1 sessB = Except.ok { room1 with
      players := room1.players ++ [newPlayer sessB (nextJoinOrder room1.players)] } :=
  ⟨join_paths_equivalent.1 srv0 none "p" "AAAA",
   join_paths_equivalent.2 room1 sessB rfl (by decide)⟩

/-- Claim C7: the create/join affordances stay disabled and no create or join
request is ever issued before the Gateway's readiness signal arrives. -/
theorem affordances_gated_on_readiness (evs : List ClientEv)
    (h : ClientEv.gotReady ∉ evs) :
    canCreate (uiRun uiInit evs) = false ∧ canJoin (uiRun uiInit evs) = false ∧
    (uiRun uiInit evs).sent = [] := by
  rw [uiRun_no_ready evs h]
  exact ⟨rfl, rfl, rfl⟩

/-- Claim C7 witness: clicking both affordances before readiness sends nothing. -/
theorem affordances_gated_on_readiness_witness :
    canCreate (uiRun uiInit [ClientEv.clickCreate, ClientEv.clickJoin]) = false ∧
    canJoin (uiRun uiInit [ClientEv.clickCreate, ClientEv.clickJoin]) = false ∧
    (uiRun uiInit [ClientEv.clickCreate, ClientEv.clickJoin]).sent = [] :=
  affordances_gated_on_readiness [ClientEv.clickCreate, ClientEv.clickJoin]
    (by decide)

/-- Claim C8: a client whose persisted token was cleared revisits the
application and lands on the neutral start state, never a stale room view,
whatever the server remembers. -/
theorem cleared_token_goes_home (srv : Server) (name : String) :
    (pageLoad srv none none name).view = View.Home := rfl

/-- Disconnected entries never count as Connected. -/
theorem beq_disconnected :
    (ConnState.Disconnected == ConnState.Connected) = false := rfl

/-- Connected count of a cons in terms of its tail. -/
theorem countConnected_cons (p : Player) (ps : List Player) :
    countConnected (p :: ps) =
      countConnected ps +
        (if p.connectionState == ConnState.Connected then 1 else 0) := by
  by_cases h : (p.connectionState == ConnState.Connected) = true
  · simp [countConnected, List.filter_cons, h]
  · rw [Bool.not_eq_true] at h
    simp [countConnected, List.filter_cons, h]

/-- Marking the leaver Disconnected leaves exactly the other players' states
in the Connected count. -/
theorem countConnected_markLeft (i : Nat) (ps : List Player) :
    countConnected (markLeft i ps) = countConnected (remainingAfter i ps) := by
  induction ps with
  | nil => rfl
  | cons p ps ih =>
      by_cases hp : p.playerId = i
      · have hb : (p.playerId == i) = true := beq_iff_eq.mpr hp
        have hb2 : (p.playerId != i) = false := by simp [bne, hb]
        have h1 : markLeft i (p :: ps) =
            { p with connectionState := ConnState.Disconnected } :: markLeft i ps := by
          simp only [markLeft, List.map_cons]
          rw [if_pos hb]
        have h2 : remainingAfter i (p :: ps) = remainingAfter i ps := by
          simp only [remainingAfter, List.filter_cons]
          rw [if_neg (by simp [hb2])]
        rw [h1, h2, countConnected_cons]
        simpa [beq_disconnected] using ih
      · have hb : (p.playerId == i) = false := by
          simpa [beq_eq_false_iff_ne] using hp
        have hb2 : (p.playerId != i) = true := by simp [bne, hb]
        have h1 : markLeft i (p :: ps) = p :: markLeft i ps := by
          simp only [markLeft, List.map_cons]
          rw [if_neg (by simp [hb])]
        have h2 : remainingAfter i (p :: ps) = p :: remainingAfter i ps := by
          simp only [remainingAfter, List.filter_cons]
          rw [if_pos hb2]
        rw [h1, h2, countConnected_cons, countConnected_cons, ih]

/-- The least-joinOrder selection picks an element of the seed-extended list. -/
theorem minByJoinOrder_mem (p : Player) (ps : List Player) :
    minByJoinOrder p ps ∈ p :: ps := by
  induction ps generalizing p with
  | nil => simp [minByJoinOrder]
  | cons q qs ih =>
      by_cases hle : p.joinOrder ≤ q.joinOrder
      · simp only [minByJoinOrder, if_pos hle]
        rcases List.mem_cons.mp (ih p) with h | h
        · rw [h]
          exact List.mem_cons_self p (q :: qs)
        · exact List.mem_cons_of_mem p (List.mem_cons_of_mem q h)
      · simp only [minByJoinOrder, if_neg hle]
        exact List.mem_cons_of_mem p (ih q)

/-- The least-joinOrder selection is minimal over the seed-extended list. -/
theorem minByJoinOrder_le (p : Player) (ps : List Player) :
    ∀ r ∈ p :: ps, (minByJoinOrder p ps).joinOrder ≤ r.joinOrder := by
  induction ps generalizing p with
  | nil =>
      intro r hr
      rw [List.mem_singleton] at hr
      subst hr
      exact Nat.le_refl _
  | cons q qs ih =>
      intro r hr
      by_cases hle : p.joinOrder ≤ q.joinOrder
      · simp only [minByJoinOrder, if_pos hle]
        rcases List.mem_cons.mp hr with h | h
        · rw [h]
          exact ih p p (List.mem_cons_self p qs)
        · rcases List.mem_cons.mp h with h2 | h2
          · rw [h2]
            exact Nat.le_trans (ih p p (List.mem_cons_self p qs)) hle
          · exact ih p r (List.mem_cons_of_mem p h2)
      · simp only [minByJoinOrder, if_neg hle]
        have hqp : q.joinOrder ≤ p.joinOrder := Nat.le_of_lt (Nat.lt_of_not_le hle)
        rcases List.mem_cons.mp hr with h | h
        · rw [h]
          exact Nat.le_trans (ih q q (List.mem_cons_self q qs)) hqp
        · exact ih q r h

/-- The least-joinOrder witness belongs to the list. -/
theorem argminJoinOrder_mem {ps : List Player} {q : Player}
    (h : argminJoinOrder ps = some q) : q ∈ ps := by
  cases ps with
  | nil => cases h
  | cons p l =>
      simp only [argminJoinOrder, Option.some.injEq] at h
      subst h
      exact minByJoinOrder_mem p l

/-- The least-joinOrder witness is minimal over the list. -/
theorem argminJoinOrder_le {ps : List Player} {q : Player}
    (h : argminJoinOrder ps = some q) :
    ∀ r ∈ ps, q.joinOrder ≤ r.joinOrder := by
  cases ps with
  | nil => cases h
  | cons p l =>
      simp only [argminJoinOrder, Option.some.injEq] at h
      subst h
      exact minByJoinOrder_le p l

/-- A nonempty list has a least-joinOrder witness. -/
theorem argminJoinOrder_of_mem {ps : List Player} {p : Player} (hp : p ∈ ps) :
    ∃ q, argminJoinOrder ps = some q := by
  cases ps with
  | nil => cases hp
  | cons a l => exact ⟨minByJoinOrder a l, rfl⟩

/-- Claim C6: a non-host leave keeps the host and drops the leaver from the
Connected count; a host leave hands the host role to the least-joinOrder
remaining Connected player; the updated roster event is delivered to every
connection attached to the room. -/
theorem leave_updates_roster_and_host (room : Room) (s : Session) :
    connectedCount (leave room s) =
      countConnected (remainingAfter s.playerId room.players) ∧
    (room.hostPlayerId ≠ s.playerId →
      (leave room s).hostPlayerId = room.hostPlayerId) ∧
    (room.hostPlayerId = s.playerId →
      ∀ q0 ∈ remainingAfter s.playerId room.players,
        q0.connectionState = ConnState.Connected →
        ∃ q ∈ remainingAfter s.playerId room.players,
          q.connectionState = ConnState.Connected ∧
          (leave room s).hostPlayerId = q.playerId ∧
          ∀ r ∈ remainingAfter s.playerId room.players,
            r.connectionState = ConnState.Connected →
            q.joinOrder ≤ r.joinOrder) ∧
    (∀ conns : List Conn,
      ∀ c ∈ broadcastEv conns room.code [rosterEvent (leave room s)],
        c.attachedRoom = some room.code →
        List.IsSuffix [(room.code, rosterEvent (leave room s))] c.inbox) := by
  refine ⟨?_, ?_, ?_, ?_⟩
  · exact countConnected_markLeft s.playerId room.players
  · intro hne
    have hb : (room.hostPlayerId == s.playerId) = false := by
      simpa [beq_eq_false_iff_ne] using hne
    simp [leave, hb]
  · intro hhost q0 hq0 hq0c
    have hb : (room.hostPlayerId == s.playerId) = true := beq_iff_eq.mpr hhost
    have hq0f : q0 ∈ (remainingAfter s.playerId room.players).filter
        fun p => p.connectionState == ConnState.Connected := by
      rw [List.mem_filter]
      exact ⟨hq0, by simp [hq0c]⟩
    obtain ⟨q, hqmin⟩ := argminJoinOrder_of_mem hq0f
    have hqf := argminJoinOrder_mem hqmin
    rw [List.mem_filter] at hqf
    refine ⟨q, hqf.1, by simpa using hqf.2, ?_, ?_⟩
    · simp [leave, hb, nextHost, hqmin]
    · intro r hr hrc
      have hrf : r ∈ (remainingAfter s.playerId room.players).filter
          fun p => p.connectionState == ConnState.Connected := by
        rw [List.mem_filter]
        exact ⟨hr, by simp [hrc]⟩
      exact argminJoinOrder_le hqmin r hrf
  · intro conns c hc hatt
    obtain ⟨c₀, hc₀, hceq⟩ := List.mem_map.mp hc
    by_cases hb : (c₀.attachedRoom == some room.code) = true
    · rw [if_pos hb] at hceq
      subst hceq
      exact ⟨c₀.inbox, rfl⟩
    · rw [Bool.not_eq_true] at hb
      rw [if_neg (by simp [hb])] at hceq
      subst hceq
      rw [hatt] at hb
      simp at hb

/-- Claim C6 witness: in room3 the host pA leaves and the role passes to pB,
the least-joinOrder remaining Connected player; a non-host leave by pB keeps
pA as host; the roster event reaches the attached connection. -/
theorem leave_updates_witness :
    connectedCount (leave room3 sessA) =
      countConnected (remainingAfter sessA.playerId room3.players) ∧
    (leave room3 sessB).hostPlayerId = room3.hostPlayerId ∧
    (∃ q ∈ remainingAfter sessA.playerId room3.players,
      q.connectionState = ConnState.Connected ∧
      (leave room3 sessA).hostPlayerId = q.playerId ∧
      ∀ r ∈ remainingAfter sessA.playerId room3.players,
        r.connectionState = ConnState.Connected → q.joinOrder ≤ r.joinOrder) ∧
    List.IsSuffix [(room3.code, rosterEvent (leave room3 sessA))]
      ({ conn0 with inbox :=
          [(room3.code, rosterEvent (leave room3 sessA))] } : Conn).inbox :=
  ⟨(leave_updates_roster_and_host room3 sessA).1,
   (leave_updates_roster_and_host room3 sessB).2.1 (by decide),
   (leave_updates_roster_and_host room3 sessA).2.2.1 rfl pB (by decide) rfl,
   (leave_updates_roster_and_host room3 sessA).2.2.2 [conn0]
     { conn0 with inbox := [(room3.code, rosterEvent (leave room3 sessA))] }
     (by simp [broadcastEv, conn0, room3]) rfl⟩

/-- After detaching a token, resolving it yields a session with no current room. -/
theorem resolve_detach {ss : List Session} {tok : String} {sess' : Session}
    (h : resolve (detachFromRoom ss tok) tok = some sess') :
    sess'.currentRoomCode = none := by
  induction ss with
  | nil => cases h
  | cons s ss ih =>
      by_cases hb : (s.token == tok) = true
      · have h1 : detachFromRoom (s :: ss) tok =
            { s with currentRoomCode := none } :: detachFromRoom ss tok := by
          simp only [detachFromRoom, List.map_cons]
          rw [if_pos hb]
        rw [h1] at h
        have h2 : resolve
            ({ s with currentRoomCode := none } :: detachFromRoom ss tok) tok =
            some { s with currentRoomCode := none } :=
          List.find?_cons_of_pos _ hb
        rw [h2] at h
        injection h with h
        rw [← h]
      · rw [Bool.not_eq_true] at hb
        have h1 : detachFromRoom (s :: ss) tok = s :: detachFromRoom ss tok := by
          simp only [detachFromRoom, List.map_cons]
          rw [if_neg (by simp [hb])]
        rw [h1] at h
        have h2 : resolve (s :: detachFromRoom ss tok) tok =
            resolve (detachFromRoom ss tok) tok :=
          List.find?_cons_of_neg _ (by simp [hb])
        rw [h2] at h
        exact ih h

/-- Claim C10: triggering the explicit leave action lands the player's client
on the home route "/" and detaches their session from the room, for every
server state and token. -/
theorem leave_action_returns_home (srv : Server) (tok : String) :
    routeOf (leaveFlow srv tok).2 = "/" ∧
    ∀ sess', resolve (leaveFlow srv tok).1.sessions tok = some sess' →
      sess'.currentRoomCode = none := by
  cases hres : resolve srv.sessions tok with
  | none =>
      refine ⟨by simp [leaveFlow, hres, routeOf], ?_⟩
      intro sess' h
      simp only [leaveFlow, hres] at h
      cases h
  | some sess =>
      cases hcur : sess.currentRoomCode with
      | none =>
          refine ⟨by simp [leaveFlow, hres, hcur, routeOf], ?_⟩
          intro sess' h
          simp only [leaveFlow, hres, hcur] at h
          exact resolve_detach h
      | some code =>
          cases hfind : findByCode srv.reg code with
          | none =>
              refine ⟨by simp [leaveFlow, hres, hcur, hfind, routeOf], ?_⟩
              intro sess' h
              simp only [leaveFlow, hres, hcur, hfind] at h
              exact resolve_detach h
          | some room =>
              refine ⟨by simp [leaveFlow, hres, hcur, hfind, routeOf], ?_⟩
              intro sess' h
              simp only [leaveFlow, hres, hcur, hfind] at h
              exact resolve_detach h

/-- Claim C10 witness: a concrete leave from room3 routes to "/" and clears
the session's current room. -/
theorem leave_action_returns_home_witness :
    routeOf (leaveFlow srvL "t").2 = "/" ∧
    ({ sessA with currentRoomCode := none } : Session).currentRoomCode = none :=
  ⟨(leave_action_returns_home srvL "t").1,
   (leave_action_returns_home srvL "t").2 { sessA with currentRoomCode := none }
     (by decide)⟩

/-- Claim C1: after a fresh session creates a room, the token the client
persists is non-empty; a page reload presenting that token keeps the token
unchanged, shows the same room view at the URL path of the room's code, and
reconnects to the same room with an unchanged roster (same slot, no
duplicate entry). -/
theorem reconnect_restores_same_room (srv : Server) (name : String)
    (cands : List (Fin 4 → Fin 34)) (srv' : Server) (tk : String) (room : Room)
    (h : createRoomFlow srv none name cands = some (srv', tk, room)) :
    tk ≠ "" ∧
    (pageLoad srv' (some tk) (some room.code) name).storedToken = tk ∧
    (pageLoad srv' (some tk) (some room.code) name).view =
      View.RoomView room.code ∧
    routeOf (pageLoad srv' (some tk) (some room.code) name).view =
      "/room/" ++ room.code ∧
    findByCode (pageLoad srv' (some tk) (some room.code) name).server.reg
      room.code = some room := by
  simp only [createRoomFlow, connect, Option.none_bind, createRoom] at h
  cases halloc : allocCode srv.reg cands with
  | none =>
      rw [halloc] at h
      cases h
  | some code =>
      rw [halloc] at h
      simp only [Option.some.injEq, Prod.mk.injEq] at h
      obtain ⟨rfl, rfl, rfl⟩ := h
      refine ⟨mintToken_ne_empty srv.nonce, ?_, ?_, ?_, ?_⟩ <;>
        simp [pageLoad, connect, attachTarget, attachToRoom, resolve,
          findByCode, liveRooms, updateRoom, join, newPlayer, routeOf,
          List.filter_cons, List.find?]

/-- Claim C1 witness: the concrete create-reload round trip from the empty
server keeps token "t" and restores room "AAAA" with its one-entry roster. -/
theorem reconnect_restores_witness :
    ("t" : String) ≠ "" ∧
    (pageLoad srvC (some "t") (some roomC.code) "p").storedToken = "t" ∧
    (pageLoad srvC (some "t") (some roomC.code) "p").view =
      View.RoomView roomC.code ∧
    routeOf (pageLoad srvC (some "t") (some roomC.code) "p").view =
      "/room/" ++ roomC.code ∧
    findByCode (pageLoad srvC (some "t") (some roomC.code) "p").server.reg
      roomC.code = some roomC :=
  reconnect_restores_same_room srv0 "p" [cand0] srvC "t" roomC (by decide)

/-- A successful join leaves the room code unchanged. -/
theorem join_code {room : Room} {s : Session} {room' : Room}
    (h : join room s = Except.ok room') : room'.code = room.code := by
  unfold join at h
  cases hp : room.phase with
  | Lobby =>
      rw [hp] at h
      cases hf : room.players.find? (fun p => p.playerId == s.playerId) with
      | some q =>
          rw [hf] at h
          cases h
          rfl
      | none =>
          rw [hf] at h
          cases h
          rfl
  | InProgress => rw [hp] at h; cases h
  | Closed => rw [hp] at h; cases h

/-- A successful start leaves the room code unchanged. -/
theorem start_code {room : Room} {s : Session} {room' : Room}
    (h : start room s = Except.ok room') : room'.code = room.code := by
  unfold start at h
  by_cases hb : (room.hostPlayerId == s.playerId) = true
  · rw [if_pos hb] at h
    cases hp : room.phase with
    | InProgress =>
        rw [hp] at h
        cases h
        rfl
    | Closed => rw [hp] at h; cases h
    | Lobby =>
        rw [hp] at h
        by_cases hlt : connectedCount room < 2
        · rw [if_pos hlt] at h
          cases h
        · rw [if_neg hlt] at h
          cases h
          rfl
  · rw [if_neg hb] at h
    cases h

/-- A serialized Room Actor operation never changes the room's code. -/
theorem applyOp_code (room : Room) (op : RoomOp) :
    (applyOp room op).1.code = room.code := by
  cases op with
  | opJoin s =>
      simp only [applyOp]
      cases hj : join room s with
      | ok r' => exact join_code hj
      | error e => rfl
  | opLeave s => rfl
  | opStart s =>
      simp only [applyOp]
      cases hs : start room s with
      | ok r' => exact start_code hs
      | error e => rfl

/-- The matched head determines the room log. -/
theorem logOf_cons_pos {rl : Room × List Event} {rest : List (Room × List Event)}
    {code : String} (h : (rl.1.code == code) = true) :
    logOf (rl :: rest) code = rl.2 := by
  have hf : List.find? (fun rl => rl.1.code == code) (rl :: rest) = some rl :=
    List.find?_cons_of_pos rest h
  unfold logOf
  rw [hf]

/-- An unmatched head leaves the room-log lookup to the tail. -/
theorem logOf_cons_neg {rl : Room × List Event} {rest : List (Room × List Event)}
    {code : String} (h : (rl.1.code == code) = false) :
    logOf (rl :: rest) code = logOf rest code := by
  have hf : List.find? (fun rl => rl.1.code == code) (rl :: rest) =
      List.find? (fun rl => rl.1.code == code) rest :=
    List.find?_cons_of_neg rest (by simp [h])
  unfold logOf
  rw [hf]

/-- Running an operation appends its events to exactly the target room's log. -/
theorem logOf_updateRoomLog (rooms : List (Room × List Event)) (z : String)
    (op : RoomOp) (code : String) :
    logOf (updateRoomLog rooms z op).1 code =
      if code = z then logOf rooms z ++ (updateRoomLog rooms z op).2
      else logOf rooms code := by
  induction rooms with
  | nil =>
      by_cases hc : code = z <;> simp [updateRoomLog, logOf, hc]
  | cons rl rest ih =>
      by_cases hb : (rl.1.code == z) = true
      · have hz : rl.1.code = z := beq_iff_eq.mp hb
        have h1 : updateRoomLog (rl :: rest) z op =
            (((applyOp rl.1 op).1, rl.2 ++ (applyOp rl.1 op).2) :: rest,
             (applyOp rl.1 op).2) := by
          simp only [updateRoomLog]
          rw [if_pos hb]
        rw [h1]
        by_cases hc : code = z
        · subst hc
          have hhead : (((applyOp rl.1 op).1, rl.2 ++ (applyOp rl.1 op).2).1.code
              == code) = true := by
            rw [applyOp_code, hz]
            exact beq_self_eq_true code
          rw [logOf_cons_pos hhead, logOf_cons_pos hb, if_pos rfl]
        · have hzc : (rl.1.code == code) = false := by
            rw [hz]
            exact beq_eq_false_iff_ne.mpr fun hh => hc hh.symm
          have hhead : (((applyOp rl.1 op).1, rl.2 ++ (applyOp rl.1 op).2).1.code
              == code) = false := by
            rw [applyOp_code, hz]
            exact beq_eq_false_iff_ne.mpr fun hh => hc hh.symm
          rw [logOf_cons_neg hhead, if_neg hc, logOf_cons_neg hzc]
      · rw [Bool.not_eq_true] at hb
        have h1 : updateRoomLog (rl :: rest) z op =
            (rl :: (updateRoomLog rest z op).1, (updateRoomLog rest z op).2) := by
          simp only [updateRoomLog]
          rw [if_neg (by simp [hb])]
        rw [h1]
        by_cases hhead : (rl.1.code == code) = true
        · have hcz : ¬code = z := by
            intro hh
            subst hh
            rw [hhead] at hb
            cases hb
          rw [logOf_cons_pos hhead, if_neg hcz, logOf_cons_pos hhead]
        · rw [Bool.not_eq_true] at hhead
          rw [logOf_cons_neg hhead, ih]
          by_cases hc : code = z
          · subst hc
            rw [if_pos rfl, if_pos rfl, logOf_cons_neg hb]
          · rw [if_neg hc, if_neg hc, logOf_cons_neg hhead]

/-- Observations across a tagged fan-out append. -/
theorem obs_append_tagged (inbox : List (String × Event)) (z code : String)
    (es : List Event) :
    ((inbox ++ es.map fun e => (z, e)).filter fun pr => pr.1 == code).map
        (fun pr => pr.2) =
      ((inbox.filter fun pr => pr.1 == code).map fun pr => pr.2) ++
        (if code = z then es else []) := by
  rw [List.filter_append, List.map_append]
  congr 1
  by_cases hc : code = z
  · subst hc
    rw [if_pos rfl]
    induction es with
    | nil => simp
    | cons e es ih => simp [List.filter_cons, ih]
  · rw [if_neg hc]
    have hzc : (z == code) = false := beq_eq_false_iff_ne.mpr fun hh => hc hh.symm
    induction es with
    | nil => simp
    | cons e es ih => simp [List.filter_cons, hzc, ih]

/-- One serialized step preserves the per-room ordering invariant. -/
theorem step_preserves_SysInv (sys : Sys) (op : String × RoomOp)
    (h : SysInv sys) : SysInv (step sys op) := by
  intro c hc code hatt
  simp only [step] at hc ⊢
  obtain ⟨c₀, hc₀, hceq⟩ := List.mem_map.mp hc
  by_cases hb : (c₀.attachedRoom == some op.1) = true
  · rw [if_pos hb] at hceq
    subst hceq
    have hatt' : c₀.attachedRoom = some code := hatt
    have hz : c₀.attachedRoom = some op.1 := beq_iff_eq.mp hb
    have hcode : code = op.1 := by
      rw [hz] at hatt'
      injection hatt' with hh
      exact hh.symm
    subst hcode
    have hobs : obs { c₀ with inbox := c₀.inbox ++
          (updateRoomLog sys.rooms op.1 op.2).2.map fun e => (op.1, e) } op.1 =
        obs c₀ op.1 ++
          (if op.1 = op.1 then (updateRoomLog sys.rooms op.1 op.2).2 else []) :=
      obs_append_tagged c₀.inbox op.1 op.1 (updateRoomLog sys.rooms op.1 op.2).2
    rw [hobs, if_pos rfl, h c₀ hc₀ op.1 hatt', logOf_updateRoomLog, if_pos rfl]
  · rw [if_neg hb] at hceq
    subst hceq
    have hatt' : c₀.attachedRoom = some code := hatt
    have hne : ¬code = op.1 := by
      intro hh
      subst hh
      rw [hatt'] at hb
      exact hb (beq_self_eq_true (some op.1))
    rw [logOf_updateRoomLog, if_neg hne]
    exact h c₀ hc₀ code hatt'

/-- Claim C9: per-room serialized execution delivers every room's events to
every connection attached to that room in exactly the order the Room Actor
produced them: the ordering invariant holds after any sequence of serialized
operations. -/
theorem serialized_event_order (ops : List (String × RoomOp)) (sys : Sys)
    (h : SysInv sys) : SysInv (run sys ops) := by
  induction ops generalizing sys with
  | nil => exact h
  | cons op ops ih => exact ih (step sys op) (step_preserves_SysInv sys op h)

/-- Claim C9 witness: the invariant holds concretely after a join and a start
against room3 with one attached connection. -/
theorem serialized_event_order_witness : SysInv (run sys0 ops0) :=
  serialized_event_order ops0 sys0 (by
    intro c hc code hatt
    have hc' : c = conn0 := by simpa [sys0] using hc
    subst hc'
    have hcode : some "AAAA" = some code := hatt
    injection hcode with hcode
    subst hcode
    rfl)

end Fishka
